import Mathlib

/-!
Verification of the flag-detection and trust-scoring engine of the
TrueStarHQ review-analysis service.

The TypeScript sources are embedded shallowly:

* `calculateTrustScore` (src/handlers/check-amazon-product/trust-score-calculator.ts)
  – numbers are modelled as exact rationals, `Math.round` as `jsRound`
  (round-half-up via the integer floor, which is what JS `Math.round` does),
  `Math.max`/`Math.min` as `max`/`min`.
* `detectReviewBombing` (review-bombing-detector.ts) – the insertion-ordered
  JS `Map` is modelled by an association list with in-place update
  (`insertIntoGroup`), folded over the batch exactly like the source loop.
* `detectHighVerifiedPurchases` (verified-purchases-detector.ts).
* `analyzeContentPatterns` (content-pattern-analyzer/index.ts) – the outcome
  of the external OpenAI call is an explicit parameter (`ClassifierOutcome`);
  the zod response schema is embedded as a validator over a small JSON model.
-/

/-- A flag as consumed by the trust-score calculator: the `type` string
discriminant and the detector confidence.  Confidence is an arbitrary
rational here; the calculator itself never restricts it. -/
structure ScoreFlag where
  type : String
  confidence : ℚ
  deriving DecidableEq, Repr

/-- `FLAG_WEIGHTS` lookup with the `|| 0` fallback of the source:
`review_bombing = -25`, `phrase_repetition = -15`,
`excessive_positivity = -10`, `high_verified_purchases = 20`,
anything else `0`. -/
def flagWeight (t : String) : ℚ :=
  if t = "review_bombing" then -25
  else if t = "phrase_repetition" then -15
  else if t = "excessive_positivity" then -10
  else if t = "high_verified_purchases" then 20
  else 0

/-- `DIMINISHING_FACTOR_RED` -/
def DIMINISHING_FACTOR_RED : ℚ := 8/10

/-- `DIMINISHING_FACTOR_GREEN` -/
def DIMINISHING_FACTOR_GREEN : ℚ := 9/10

/-- `MULTIPLE_RED_FLAGS_THRESHOLD` -/
def MULTIPLE_RED_FLAGS_THRESHOLD : ℕ := 2

/-- `MULTIPLE_RED_FLAGS_PENALTY` -/
def MULTIPLE_RED_FLAGS_PENALTY : ℚ := 8/10

/-- JavaScript `Math.round`: round half up, i.e. `⌊x + 1/2⌋`. -/
def jsRound (x : ℚ) : ℤ := ⌊x + 1/2⌋

/-- The indexed `Array.prototype.reduce` of the source: starting from
accumulator `total` at index `i`, add
`flagWeight flag.type * flag.confidence * decay ^ index` for each flag. -/
def reduceImpact (decay : ℚ) : List ScoreFlag → ℕ → ℚ → ℚ
  | [], _, total => total
  | f :: fs, i, total =>
      reduceImpact decay fs (i + 1) (total + flagWeight f.type * f.confidence * decay ^ i)

/-- `calculateTrustScore` from trust-score-calculator.ts: base 50, plus the
two diminishing-returns impact sums, times the pile-on penalty when more than
`MULTIPLE_RED_FLAGS_THRESHOLD` red flags are present, rounded and clamped
to `[0, 100]`. -/
def calculateTrustScore (redFlags greenFlags : List ScoreFlag) : ℤ :=
  let BASE_SCORE : ℚ := 50
  let redFlagImpact := reduceImpact DIMINISHING_FACTOR_RED redFlags 0 0
  let greenFlagImpact := reduceImpact DIMINISHING_FACTOR_GREEN greenFlags 0 0
  let score := BASE_SCORE + redFlagImpact + greenFlagImpact
  let score :=
    if MULTIPLE_RED_FLAGS_THRESHOLD < redFlags.length
    then score * MULTIPLE_RED_FLAGS_PENALTY else score
  max 0 (min 100 (jsRound score))

/-- Reference impact sum, written the way the specification describes it:
the flag at 0-based position `i` of its list contributes
`weight(type) * confidence * decay ^ i`. -/
def impactSum_spec (decay : ℚ) (flags : List ScoreFlag) : ℚ :=
  ((flags.enum).map (fun p => flagWeight p.2.type * p.2.confidence * decay ^ p.1)).sum

/-- Reference trust score, written the way the specification describes it:
start from 50, add both lists' positional impact sums (decay 0.8 red,
0.9 green), multiply once by 0.8 when `redFlags.length > 2`, round to the
nearest integer and clamp to `[0, 100]`. -/
def calculateTrustScore_spec (redFlags greenFlags : List ScoreFlag) : ℤ :=
  let score : ℚ :=
    50 + impactSum_spec (8/10) redFlags + impactSum_spec (9/10) greenFlags
  let score : ℚ := if 2 < redFlags.length then score * (8/10) else score
  max 0 (min 100 (jsRound score))

/-- The red-flag `type` discriminants of the source union `RedFlag`. -/
def isRedFlagType (t : String) : Prop :=
  t = "review_bombing" ∨ t = "phrase_repetition" ∨ t = "excessive_positivity"

instance (t : String) : Decidable (isRedFlagType t) := by
  unfold isRedFlagType; infer_instance

section TrustScoreLemmas

lemma jsRound_mono {x y : ℚ} (h : x ≤ y) : jsRound x ≤ jsRound y :=
  Int.floor_le_floor (by linarith)

lemma clampRound_eq (x : ℚ) (n : ℤ) (h0 : 0 ≤ n) (h100 : n ≤ 100)
    (h₁ : (n : ℚ) ≤ x + 1/2) (h₂ : x + 1/2 < n + 1) :
    max 0 (min 100 (jsRound x)) = n := by
  have : jsRound x = n := Int.floor_eq_iff.mpr ⟨h₁, h₂⟩
  omega

lemma clampRound_mono {x y : ℚ} (h : x ≤ y) :
    max 0 (min 100 (jsRound x)) ≤ max 0 (min 100 (jsRound y)) := by
  have := jsRound_mono h
  omega

lemma clampRound_nonneg (x : ℚ) : 0 ≤ max 0 (min 100 (jsRound x)) :=
  le_max_left _ _

lemma clampRound_of_nonpos {x : ℚ} (h : x ≤ 0) :
    max 0 (min 100 (jsRound x)) = 0 := by
  have h1 : jsRound x ≤ jsRound 0 := jsRound_mono h
  have h2 : jsRound 0 = 0 := by
    apply Int.floor_eq_iff.mpr
    norm_num
  omega

lemma reduceImpact_acc (decay : ℚ) :
    ∀ (fs : List ScoreFlag) (i : ℕ) (t : ℚ),
      reduceImpact decay fs i t = t + reduceImpact decay fs i 0 := by
  intro fs
  induction fs with
  | nil => intro i t; simp [reduceImpact]
  | cons f fs ih =>
      intro i t
      simp only [reduceImpact]
      rw [ih (i + 1) (t + flagWeight f.type * f.confidence * decay ^ i),
        ih (i + 1) (0 + flagWeight f.type * f.confidence * decay ^ i)]
      ring

lemma reduceImpact_eq_enumFrom (decay : ℚ) :
    ∀ (fs : List ScoreFlag) (i : ℕ) (t : ℚ),
      reduceImpact decay fs i t =
        t + ((fs.enumFrom i).map
          (fun p => flagWeight p.2.type * p.2.confidence * decay ^ p.1)).sum := by
  intro fs
  induction fs with
  | nil => intro i t; simp [reduceImpact, List.enumFrom]
  | cons f fs ih =>
      intro i t
      simp only [reduceImpact, List.enumFrom, List.map_cons, List.sum_cons]
      rw [ih]
      ring

lemma reduceImpact_append_single (decay : ℚ) (f : ScoreFlag) :
    ∀ (fs : List ScoreFlag) (i : ℕ) (t : ℚ),
      reduceImpact decay (fs ++ [f]) i t =
        reduceImpact decay fs i t +
          flagWeight f.type * f.confidence * decay ^ (i + fs.length) := by
  intro fs
  induction fs with
  | nil => intro i t; simp [reduceImpact]
  | cons a fs ih =>
      intro i t
      simp only [List.cons_append, reduceImpact, List.length_cons, List.append_eq]
      rw [ih]
      ring_nf

end TrustScoreLemmas

/-- C1: `calculateTrustScore` coincides with the specification's reference
algorithm on every pair of flag lists: base 50; the flag at 0-based position
`i` in its list contributes `weight(type) * confidence * decay^i` with the
fixed weight table and decay 0.8 (red) / 0.9 (green); one pile-on
multiplication by 0.8 when more than two red flags are present; round to
nearest; clamp to `[0, 100]`. -/
theorem spec_C1_trustScore_matches_reference (redFlags greenFlags : List ScoreFlag) :
    calculateTrustScore redFlags greenFlags =
      calculateTrustScore_spec redFlags greenFlags := by
  have hred := reduceImpact_eq_enumFrom DIMINISHING_FACTOR_RED redFlags 0 0
  have hgreen := reduceImpact_eq_enumFrom DIMINISHING_FACTOR_GREEN greenFlags 0 0
  rw [zero_add] at hred hgreen
  simp only [DIMINISHING_FACTOR_RED, DIMINISHING_FACTOR_GREEN] at hred hgreen
  simp only [calculateTrustScore, calculateTrustScore_spec, impactSum_spec, List.enum,
    MULTIPLE_RED_FLAGS_THRESHOLD, MULTIPLE_RED_FLAGS_PENALTY,
    DIMINISHING_FACTOR_RED, DIMINISHING_FACTOR_GREEN]
  rw [hred, hgreen]

/-- C2: on every pair of flag lists (arbitrary type strings, arbitrary
rational confidences) the trust score is an integer between 0 and 100; the
function is total by construction. -/
theorem spec_C2_trustScore_clamped (redFlags greenFlags : List ScoreFlag) :
    0 ≤ calculateTrustScore redFlags greenFlags ∧
      calculateTrustScore redFlags greenFlags ≤ 100 := by
  simp only [calculateTrustScore]
  omega

/-- C3: the trust score of two empty flag lists is exactly the base score 50. -/
theorem spec_C3_emptyFlags_score_50 : calculateTrustScore [] [] = 50 := by
  simp [calculateTrustScore, reduceImpact]
  apply clampRound_eq <;> norm_num

section AppendMonotone

lemma flagWeight_red_neg {t : String} (h : isRedFlagType t) : flagWeight t < 0 := by
  rcases h with h | h | h <;> subst h <;> simp [flagWeight]

lemma flagWeight_green : flagWeight "high_verified_purchases" = 20 := by
  simp [flagWeight]

lemma score_red_step (S δ : ℚ) (hδ : δ < 0) (n : ℕ) :
    max 0 (min 100 (jsRound (if 2 < n + 1 then (S + δ) * (8/10) else S + δ))) ≤
      max 0 (min 100 (jsRound (if 2 < n then S * (8/10) else S))) := by
  by_cases h3 : 2 < n
  · rw [if_pos (by omega : 2 < n + 1), if_pos h3]
    exact clampRound_mono (by nlinarith)
  · by_cases h2 : 2 < n + 1
    · rw [if_pos h2, if_neg h3]
      by_cases hS : S + δ ≤ 0
      · have hle : (S + δ) * (8/10) ≤ 0 := by nlinarith
        rw [clampRound_of_nonpos hle]
        exact clampRound_nonneg _
      · push_neg at hS
        exact clampRound_mono (by nlinarith)
    · rw [if_neg h2, if_neg h3]
      exact clampRound_mono (by linarith)

lemma trustScore_append_red_le (red green : List ScoreFlag) (f : ScoreFlag)
    (ht : isRedFlagType f.type) (hc : 0 < f.confidence) :
    calculateTrustScore (red ++ [f]) green ≤ calculateTrustScore red green := by
  have hw : flagWeight f.type < 0 := flagWeight_red_neg ht
  have hpow : (0 : ℚ) < (8/10) ^ red.length := by positivity
  have hδ : flagWeight f.type * f.confidence * (8/10) ^ red.length < 0 :=
    mul_neg_of_neg_of_pos (mul_neg_of_neg_of_pos hw hc) hpow
  have happ := reduceImpact_append_single (8/10) f red 0 0
  rw [zero_add] at happ
  simp only [calculateTrustScore, DIMINISHING_FACTOR_RED, DIMINISHING_FACTOR_GREEN,
    MULTIPLE_RED_FLAGS_THRESHOLD, MULTIPLE_RED_FLAGS_PENALTY, List.length_append,
    List.length_singleton]
  rw [happ]
  have hre :
      50 + (reduceImpact (8/10) red 0 0 +
          flagWeight f.type * f.confidence * (8/10) ^ red.length) +
        reduceImpact (9/10) green 0 0 =
      (50 + reduceImpact (8/10) red 0 0 + reduceImpact (9/10) green 0 0) +
        flagWeight f.type * f.confidence * (8/10) ^ red.length := by ring
  rw [hre]
  exact score_red_step _ _ hδ red.length

lemma trustScore_append_green_ge (red green : List ScoreFlag) (f : ScoreFlag)
    (ht : f.type = "high_verified_purchases") (hc : 0 < f.confidence) :
    calculateTrustScore red green ≤ calculateTrustScore red (green ++ [f]) := by
  have hw : flagWeight f.type = 20 := by rw [ht]; exact flagWeight_green
  have hpow : (0 : ℚ) < (9/10) ^ green.length := by positivity
  have hδ : 0 < flagWeight f.type * f.confidence * (9/10) ^ green.length := by
    rw [hw]; positivity
  have happ := reduceImpact_append_single (9/10) f green 0 0
  rw [zero_add] at happ
  simp only [calculateTrustScore, DIMINISHING_FACTOR_RED, DIMINISHING_FACTOR_GREEN,
    MULTIPLE_RED_FLAGS_THRESHOLD, MULTIPLE_RED_FLAGS_PENALTY]
  rw [happ]
  have hre :
      50 + reduceImpact (8/10) red 0 0 + (reduceImpact (9/10) green 0 0 +
          flagWeight f.type * f.confidence * (9/10) ^ green.length) =
      (50 + reduceImpact (8/10) red 0 0 + reduceImpact (9/10) green 0 0) +
        flagWeight f.type * f.confidence * (9/10) ^ green.length := by ring
  rw [hre]
  by_cases h3 : 2 < red.length
  · rw [if_pos h3, if_pos h3]
    exact clampRound_mono (by nlinarith)
  · rw [if_neg h3, if_neg h3]
    exact clampRound_mono (by linarith)

end AppendMonotone

/-- C4 counterexample: appending the red flag `review_bombing` with
confidence 1/1000 (> 0) to empty flag lists does NOT strictly decrease the
trust score: both calls return 50, because the penalty of 0.025 points
vanishes under the final rounding. -/
theorem spec_C4_counterexample :
    (0 : ℚ) < 1/1000 ∧
      ¬ calculateTrustScore ([] ++ [{ type := "review_bombing", confidence := 1/1000 }]) [] <
          calculateTrustScore [] [] := by
  constructor
  · norm_num
  · have h1 : calculateTrustScore [{ type := "review_bombing", confidence := 1/1000 }] [] = 50 := by
      simp [calculateTrustScore, reduceImpact, flagWeight, MULTIPLE_RED_FLAGS_THRESHOLD,
        MULTIPLE_RED_FLAGS_PENALTY, DIMINISHING_FACTOR_RED, DIMINISHING_FACTOR_GREEN]
      apply clampRound_eq <;> norm_num
    have h2 : calculateTrustScore [] [] = 50 := by
      simp [calculateTrustScore, reduceImpact]
      apply clampRound_eq <;> norm_num
    simp only [List.nil_append]
    omega

/-- C4 (amended): appending one red flag (any of the three red types) with
confidence > 0 never increases the trust score, and appending one
`high_verified_purchases` green flag with confidence > 0 never decreases it.
(The original strict version fails only where the change is erased by the
final rounding or clamping, as the counterexample shows.) -/
theorem spec_C4_append_monotone :
    (∀ (red green : List ScoreFlag) (f : ScoreFlag),
        isRedFlagType f.type → 0 < f.confidence →
        calculateTrustScore (red ++ [f]) green ≤ calculateTrustScore red green) ∧
    (∀ (red green : List ScoreFlag) (f : ScoreFlag),
        f.type = "high_verified_purchases" → 0 < f.confidence →
        calculateTrustScore red green ≤ calculateTrustScore red (green ++ [f])) :=
  ⟨trustScore_append_red_le, trustScore_append_green_ge⟩

/-- Witness for C4 (amended), at concrete inputs. -/
theorem spec_C4_append_monotone_witness :
    calculateTrustScore ([] ++ [{ type := "review_bombing", confidence := 1 }]) [] ≤
        calculateTrustScore [] [] ∧
      calculateTrustScore [] [] ≤
        calculateTrustScore [] ([] ++ [{ type := "high_verified_purchases", confidence := 1 }]) :=
  ⟨spec_C4_append_monotone.1 [] [] { type := "review_bombing", confidence := 1 }
      (Or.inl rfl) (by norm_num),
    spec_C4_append_monotone.2 [] [] { type := "high_verified_purchases", confidence := 1 }
      rfl (by norm_num)⟩

/-- The fields of an `AmazonReview` consumed by the local detectors.
`date` is the optional free-form date string (`none` = field absent). -/
structure Review where
  id : String
  rating : ℚ
  text : String
  author : String
  verified : Bool
  date : Option String
  deriving DecidableEq, Repr

/-- The JavaScript truthiness test `!review.date` of the source loop:
grouping skips a review whose `date` is absent or the empty string.
`dateKey r = some d` exactly when the source would group `r` under `d`. -/
def dateKey (r : Review) : Option String :=
  match r.date with
  | none => none
  | some d => if d = "" then none else some d

/-- `existing.push(review); reviewsByDate.set(date, existing)` on the
insertion-ordered JS `Map`: updating an existing key keeps its position,
a new key is appended at the end. -/
def insertIntoGroup : List (String × List Review) → String → Review → List (String × List Review)
  | [], d, r => [(d, [r])]
  | (k, rs) :: m, d, r =>
      if k = d then (k, rs ++ [r]) :: m else (k, rs) :: insertIntoGroup m d r

/-- The first loop of `detectReviewBombing`: build `reviewsByDate`. -/
def groupByDate (reviews : List Review) : List (String × List Review) :=
  reviews.foldl
    (fun m r =>
      match dateKey r with
      | none => m
      | some d => insertIntoGroup m d r)
    []

/-- `MINIMUM_REVIEWS_FOR_BOMBING` -/
def MINIMUM_REVIEWS_FOR_BOMBING : ℕ := 4

/-- The `details` record of a `review_bombing` flag. -/
structure BombingDetails where
  date : String
  reviewCount : ℕ
  hoursSpan : ℕ
  reviewIds : List String
  deriving DecidableEq, Repr

/-- A `ReviewBombingFlag` (`type` is the literal string of the source). -/
structure ReviewBombingFlag where
  type : String
  confidence : ℚ
  details : BombingDetails
  deriving DecidableEq, Repr

namespace ReviewBombingDetector

/-- `calculateConfidence` from review-bombing-detector.ts: base 0.5, size
bonus, unverified-ratio bonus, same-rating bonus, capped at 1.0. -/
def calculateConfidence (reviews : List Review) : ℚ :=
  let confidence : ℚ := 1/2
  let confidence :=
    if 10 ≤ reviews.length then confidence + 2/10
    else if 5 ≤ reviews.length then confidence + 1/10
    else confidence
  let unverifiedCount := (reviews.filter (fun r => !r.verified)).length
  let unverifiedRatio : ℚ := (unverifiedCount : ℚ) / (reviews.length : ℚ)
  let confidence :=
    if 7/10 < unverifiedRatio then confidence + 2/10
    else if 1/2 < unverifiedRatio then confidence + 1/10
    else confidence
  let allSameRating : Bool :=
    match reviews.head? with
    | none => false
    | some r₀ => reviews.all (fun r => decide (r.rating = r₀.rating))
  let confidence := if allSameRating then confidence + 1/10 else confidence
  min confidence 1

end ReviewBombingDetector

/-- `detectReviewBombing` from review-bombing-detector.ts: one flag per
grouped date whose group reaches `MINIMUM_REVIEWS_FOR_BOMBING`. -/
def detectReviewBombing (reviews : List Review) : List ReviewBombingFlag :=
  (groupByDate reviews).filterMap
    (fun g =>
      if MINIMUM_REVIEWS_FOR_BOMBING ≤ g.2.length then
        some
          { type := "review_bombing"
            confidence := ReviewBombingDetector.calculateConfidence g.2
            details :=
              { date := g.1
                reviewCount := g.2.length
                hoursSpan := 24
                reviewIds := g.2.map Review.id } }
      else none)

/-- The reviews the source groups under date `d`, in original batch order. -/
def groupOf (reviews : List Review) (d : String) : List Review :=
  reviews.filter (fun r => dateKey r = some d)

/-- Append a date to the accumulator unless already present. -/
def addIfNew (acc : List String) (d : String) : List String :=
  if d ∈ acc then acc else acc ++ [d]

/-- First occurrences of the groupable date strings, in batch order. -/
def firstDates (reviews : List Review) : List String :=
  (reviews.filterMap dateKey).foldl addIfNew []

section GroupByDateLemmas

lemma mem_foldl_addIfNew (d : String) :
    ∀ (ks ds : List String), d ∈ ks.foldl addIfNew ds ↔ d ∈ ds ∨ d ∈ ks := by
  intro ks
  induction ks with
  | nil => intro ds; simp
  | cons k ks ih =>
      intro ds
      rw [List.foldl_cons, ih]
      unfold addIfNew
      by_cases hk : k ∈ ds
      · rw [if_pos hk]
        constructor
        · rintro (h | h)
          · exact Or.inl h
          · exact Or.inr (List.mem_cons_of_mem _ h)
        · rintro (h | h)
          · exact Or.inl h
          · rcases List.mem_cons.mp h with h | h
            · exact Or.inl (h ▸ hk)
            · exact Or.inr h
      · rw [if_neg hk]
        simp only [List.mem_append, List.mem_singleton, List.mem_cons]
        tauto

lemma nodup_foldl_addIfNew :
    ∀ (ks ds : List String), ds.Nodup → (ks.foldl addIfNew ds).Nodup := by
  intro ks
  induction ks with
  | nil => intro ds h; simpa using h
  | cons k ks ih =>
      intro ds h
      rw [List.foldl_cons]
      apply ih
      unfold addIfNew
      by_cases hk : k ∈ ds
      · rwa [if_pos hk]
      · rw [if_neg hk]
        simpa [List.nodup_append] using ⟨h, hk⟩

lemma insertIntoGroup_of_mem (r : Review) :
    ∀ (ds : List String) (G : String → List Review) (d₀ : String),
      ds.Nodup → d₀ ∈ ds →
      insertIntoGroup (ds.map (fun d => (d, G d))) d₀ r =
        ds.map (fun d => (d, if d = d₀ then G d ++ [r] else G d)) := by
  intro ds
  induction ds with
  | nil => intro G d₀ _ h; exact absurd h (List.not_mem_nil d₀)
  | cons a ds ih =>
      intro G d₀ hnd hmem
      simp only [List.map_cons, insertIntoGroup]
      by_cases ha : a = d₀
      · rw [if_pos ha, ha, if_pos rfl]
        congr 1
        apply List.map_congr_left
        intro d hd
        have : d ≠ d₀ := by
          rintro rfl
          exact (List.nodup_cons.mp hnd).1 (ha ▸ hd)
        rw [if_neg this]
      · rw [if_neg ha, if_neg ha]
        have hmem' : d₀ ∈ ds := by
          rcases List.mem_cons.mp hmem with h | h
          · exact absurd h.symm ha
          · exact h
        rw [ih G d₀ (List.nodup_cons.mp hnd).2 hmem']

lemma insertIntoGroup_of_notMem (r : Review) :
    ∀ (ds : List String) (G : String → List Review) (d₀ : String),
      d₀ ∉ ds →
      insertIntoGroup (ds.map (fun d => (d, G d))) d₀ r =
        ds.map (fun d => (d, G d)) ++ [(d₀, [r])] := by
  intro ds
  induction ds with
  | nil => intro G d₀ _; simp [insertIntoGroup]
  | cons a ds ih =>
      intro G d₀ h
      have ha : a ≠ d₀ := fun hc => h (hc ▸ List.mem_cons_self a ds)
      simp only [List.map_cons, insertIntoGroup, if_neg ha, List.cons_append]
      rw [ih G d₀ (fun hc => h (List.mem_cons_of_mem a hc))]

lemma groupOf_cons_none {r : Review} (hk : dateKey r = none) (revs : List Review)
    (d : String) : groupOf (r :: revs) d = groupOf revs d := by
  simp [groupOf, List.filter_cons, hk]

lemma groupOf_cons_step {r : Review} {d₀ : String} (hk : dateKey r = some d₀)
    (G : String → List Review) (revs : List Review) (d : String) :
    (if d = d₀ then G d ++ [r] else G d) ++ groupOf revs d =
      G d ++ groupOf (r :: revs) d := by
  by_cases hd : d = d₀
  · subst hd
    rw [if_pos rfl]
    have h : groupOf (r :: revs) d = r :: groupOf revs d := by
      simp [groupOf, List.filter_cons, hk]
    rw [h, List.append_assoc, List.singleton_append]
  · rw [if_neg hd]
    have h : groupOf (r :: revs) d = groupOf revs d := by
      have hne : d₀ ≠ d := fun h => hd h.symm
      simp [groupOf, List.filter_cons, hk, hne]
    rw [h]

lemma groupByDate_general :
    ∀ (revs : List Review) (ds : List String) (G : String → List Review),
      ds.Nodup → (∀ d, d ∉ ds → G d = []) →
      revs.foldl
        (fun m r => match dateKey r with | none => m | some d => insertIntoGroup m d r)
        (ds.map (fun d => (d, G d))) =
      ((revs.filterMap dateKey).foldl addIfNew ds).map
        (fun d => (d, G d ++ groupOf revs d)) := by
  intro revs
  induction revs with
  | nil =>
      intro ds G _ _
      simp [groupOf]
  | cons r revs ih =>
      intro ds G hnd hG
      rw [List.foldl_cons, List.filterMap_cons]
      cases hk : dateKey r with
      | none =>
          simp only
          rw [ih ds G hnd hG]
          apply List.map_congr_left
          intro d _
          rw [groupOf_cons_none hk]
      | some d₀ =>
          simp only
          by_cases hmem : d₀ ∈ ds
          · rw [insertIntoGroup_of_mem r ds G d₀ hnd hmem,
              ih ds (fun d => if d = d₀ then G d ++ [r] else G d) hnd
                (fun d hd => by
                  have hne : d ≠ d₀ := fun h => hd (h ▸ hmem)
                  simp only [if_neg hne]
                  exact hG d hd)]
            have haddf : addIfNew ds d₀ = ds := by simp [addIfNew, hmem]
            rw [List.foldl_cons, haddf]
            apply List.map_congr_left
            intro d _
            simp only [groupOf_cons_step hk]
          · have hnotin : d₀ ∉ ds := hmem
            rw [insertIntoGroup_of_notMem r ds G d₀ hnotin]
            have hsplit :
                ds.map (fun d => (d, G d)) ++ [(d₀, [r])] =
                  (ds ++ [d₀]).map (fun d => (d, if d = d₀ then G d ++ [r] else G d)) := by
              rw [List.map_append]
              congr 1
              · apply List.map_congr_left
                intro d hd
                have hne : d ≠ d₀ := fun h => hnotin (h ▸ hd)
                rw [if_neg hne]
              · simp [hG d₀ hnotin]
            rw [hsplit,
              ih (ds ++ [d₀]) (fun d => if d = d₀ then G d ++ [r] else G d)
                (by simp [List.nodup_append, hnd, hnotin])
                (fun d hd => by
                  have hne : d ≠ d₀ := fun h =>
                    hd (h ▸ List.mem_append_right ds (List.mem_singleton.mpr rfl))
                  have hds : d ∉ ds := fun h => hd (List.mem_append_left _ h)
                  simp only [if_neg hne]
                  exact hG d hds)]
            have haddf : addIfNew ds d₀ = ds ++ [d₀] := by simp [addIfNew, hnotin]
            rw [List.foldl_cons, haddf]
            apply List.map_congr_left
            intro d _
            simp only [groupOf_cons_step hk]

/-- The `reviewsByDate` map of the source is, as an association list, the
first-occurrence date keys each paired with the batch-order filter of the
batch to that date. -/
lemma groupByDate_eq (revs : List Review) :
    groupByDate revs = (firstDates revs).map (fun d => (d, groupOf revs d)) := by
  have h := groupByDate_general revs [] (fun _ => []) List.nodup_nil (fun _ _ => rfl)
  simpa [groupByDate, firstDates] using h

lemma firstDates_nodup (revs : List Review) : (firstDates revs).Nodup :=
  nodup_foldl_addIfNew _ [] List.nodup_nil

lemma mem_firstDates {revs : List Review} {d : String} :
    d ∈ firstDates revs ↔ ∃ r ∈ revs, dateKey r = some d := by
  unfold firstDates
  rw [mem_foldl_addIfNew]
  simp [List.mem_filterMap]

end GroupByDateLemmas

/-- The flag (if any) that `detectReviewBombing` derives from date `d`. -/
def flagFor (revs : List Review) (d : String) : Option ReviewBombingFlag :=
  if MINIMUM_REVIEWS_FOR_BOMBING ≤ (groupOf revs d).length then
    some
      { type := "review_bombing"
        confidence := ReviewBombingDetector.calculateConfidence (groupOf revs d)
        details :=
          { date := d
            reviewCount := (groupOf revs d).length
            hoursSpan := 24
            reviewIds := (groupOf revs d).map Review.id } }
  else none

lemma flagFor_date {revs : List Review} {d : String} {f : ReviewBombingFlag}
    (h : flagFor revs d = some f) : f.details.date = d := by
  unfold flagFor at h
  split at h
  · cases h; rfl
  · cases h

lemma detectReviewBombing_eq (revs : List Review) :
    detectReviewBombing revs = (firstDates revs).filterMap (flagFor revs) := by
  rw [detectReviewBombing, groupByDate_eq, List.filterMap_map]
  rfl

lemma filterMap_flagFor_filter (revs : List Review) (d : String) :
    ∀ L : List String, L.Nodup →
      ((L.filterMap (flagFor revs)).filter (fun f => f.details.date = d)) =
        if d ∈ L then (flagFor revs d).toList else [] := by
  intro L
  induction L with
  | nil => simp
  | cons a L ih =>
      intro hnd
      obtain ⟨ha, hL⟩ := List.nodup_cons.mp hnd
      rw [List.filterMap_cons]
      cases hfa : flagFor revs a with
      | none =>
          rw [ih hL]
          by_cases hd : d = a
          · subst hd
            simp [ha, hfa]
          · simp [List.mem_cons, hd]
      | some f =>
          have hdate : f.details.date = a := flagFor_date hfa
          rw [List.filter_cons]
          by_cases hd : d = a
          · subst hd
            simp [hdate, ih hL, ha, hfa]
          · have hne : ¬ f.details.date = d := by rw [hdate]; exact fun h => hd h.symm
            simp [hne, ih hL, List.mem_cons, hd]

lemma groupOf_mem {revs : List Review} {d : String} {r : Review}
    (h : r ∈ groupOf revs d) : r ∈ revs ∧ dateKey r = some d := by
  have := List.mem_filter.mp h
  exact ⟨this.1, of_decide_eq_true this.2⟩

lemma detectReviewBombing_ids (revs : List Review) :
    ∀ f ∈ detectReviewBombing revs, ∀ i ∈ f.details.reviewIds,
      ∃ r ∈ revs, dateKey r ≠ none ∧ r.id = i := by
  intro f hf i hi
  rw [detectReviewBombing_eq] at hf
  obtain ⟨d, _, hFd⟩ := List.mem_filterMap.mp hf
  unfold flagFor at hFd
  split at hFd
  · cases hFd
    simp only [List.mem_map] at hi
    obtain ⟨r, hr, hid⟩ := hi
    obtain ⟨hrev, hkey⟩ := groupOf_mem hr
    exact ⟨r, hrev, by rw [hkey]; exact fun h => Option.noConfusion h, hid⟩
  · cases hFd

/-- C5: for every batch and every date string `d`, letting `grp` be the
reviews grouped under `d` (only reviews with a usable date, by exact string
equality, in batch order): if `grp` has at least 4 members the detector
emits exactly one `review_bombing` flag for `d` — with `reviewCount` the
group size, `hoursSpan` the constant 24, and `reviewIds` the group members'
ids in original batch order — and if `grp` has at most 3 members it emits no
flag for `d`; moreover every id referenced by any emitted flag is the id of
a batch review that has a usable date. -/
theorem spec_C5_reviewBombing_flags (revs : List Review) :
    (∀ d : String,
      (MINIMUM_REVIEWS_FOR_BOMBING ≤ (groupOf revs d).length →
        (detectReviewBombing revs).filter (fun f => f.details.date = d) =
          [{ type := "review_bombing"
             confidence := ReviewBombingDetector.calculateConfidence (groupOf revs d)
             details :=
               { date := d
                 reviewCount := (groupOf revs d).length
                 hoursSpan := 24
                 reviewIds := (groupOf revs d).map Review.id } }]) ∧
      ((groupOf revs d).length < MINIMUM_REVIEWS_FOR_BOMBING →
        (detectReviewBombing revs).filter (fun f => f.details.date = d) = [])) ∧
    (∀ f ∈ detectReviewBombing revs, ∀ i ∈ f.details.reviewIds,
      ∃ r ∈ revs, dateKey r ≠ none ∧ r.id = i) := by
  constructor
  · intro d
    rw [detectReviewBombing_eq, filterMap_flagFor_filter revs d _ (firstDates_nodup revs)]
    constructor
    · intro h4
      have hne : groupOf revs d ≠ [] := by
        intro h
        rw [h] at h4
        simp [MINIMUM_REVIEWS_FOR_BOMBING] at h4
      have hmem : d ∈ firstDates revs := by
        rw [mem_firstDates]
        obtain ⟨r, hr⟩ := List.exists_mem_of_ne_nil _ hne
        obtain ⟨hrev, hkey⟩ := groupOf_mem hr
        exact ⟨r, hrev, hkey⟩
      rw [if_pos hmem]
      simp [flagFor, h4]
    · intro hlt
      have hnone : flagFor revs d = none := by
        simp [flagFor, Nat.not_le.mpr hlt]
      by_cases hmem : d ∈ firstDates revs
      · rw [if_pos hmem, hnone]
        rfl
      · rw [if_neg hmem]
  · exact detectReviewBombing_ids revs

/-- Reference confidence formula for a bombing group, as the specification
states it: `0.5 + sizeBonus + unverifiedBonus + sameRatingBonus` capped at 1,
with `sizeBonus` 0.2 for groups of 10+, 0.1 for 5+, else 0; `unverifiedBonus`
0.2 for an unverified ratio strictly above 0.7, 0.1 strictly above 0.5,
else 0; `sameRatingBonus` 0.1 when every review in the group has the same
rating. -/
def confidence_spec (grp : List Review) : ℚ :=
  let sizeBonus : ℚ :=
    if 10 ≤ grp.length then 2/10 else if 5 ≤ grp.length then 1/10 else 0
  let unverifiedRatio : ℚ :=
    ((grp.filter (fun r => !r.verified)).length : ℚ) / (grp.length : ℚ)
  let unverifiedBonus : ℚ :=
    if 7/10 < unverifiedRatio then 2/10 else if 1/2 < unverifiedRatio then 1/10 else 0
  let sameRatingBonus : ℚ :=
    if ∀ r ∈ grp, ∀ r' ∈ grp, r.rating = r'.rating then 1/10 else 0
  min (1/2 + sizeBonus + unverifiedBonus + sameRatingBonus) 1

lemma allSame_head_iff {grp : List Review} (h : grp ≠ []) :
    ((match grp.head? with
      | none => false
      | some r₀ => grp.all (fun r => decide (r.rating = r₀.rating))) = true) ↔
      ∀ r ∈ grp, ∀ r' ∈ grp, r.rating = r'.rating := by
  cases grp with
  | nil => exact absurd rfl h
  | cons a l =>
      simp only [List.head?_cons, List.all_eq_true, decide_eq_true_eq]
      constructor
      · intro hall r hr r' hr'
        rw [hall r hr, hall r' hr']
      · intro hsym r hr
        exact hsym r hr a (List.mem_cons_self a l)

lemma calculateConfidence_eq_spec (grp : List Review) (h : grp ≠ []) :
    ReviewBombingDetector.calculateConfidence grp = confidence_spec grp := by
  unfold ReviewBombingDetector.calculateConfidence confidence_spec
  simp only
  by_cases hp : ∀ r ∈ grp, ∀ r' ∈ grp, r.rating = r'.rating
  · rw [if_pos ((allSame_head_iff h).mpr hp), if_pos hp]
    split_ifs <;> ring_nf
  · rw [if_neg (fun hbt => hp ((allSame_head_iff h).mp hbt)), if_neg hp]
    split_ifs <;> ring_nf

/-- A review of test Scenario A: dated 2024-01-15, unverified, rating 5. -/
def mkScenarioAReview (i : String) : Review :=
  { id := i, rating := 5, text := "great", author := "u", verified := false,
    date := some "2024-01-15" }

/-- Scenario A batch: 5 reviews, all same date, all unverified, rating 5. -/
def scenarioA : List Review :=
  [mkScenarioAReview "a1", mkScenarioAReview "a2", mkScenarioAReview "a3",
    mkScenarioAReview "a4", mkScenarioAReview "a5"]

/-- The single flag Scenario A produces (confidence 0.9). -/
def scenarioAFlag : ReviewBombingFlag :=
  { type := "review_bombing"
    confidence := 9/10
    details :=
      { date := "2024-01-15", reviewCount := 5, hoursSpan := 24,
        reviewIds := ["a1", "a2", "a3", "a4", "a5"] } }

lemma detect_scenarioA : detectReviewBombing scenarioA = [scenarioAFlag] := by
  simp [detectReviewBombing, groupByDate, scenarioA, mkScenarioAReview, dateKey,
    insertIntoGroup, MINIMUM_REVIEWS_FOR_BOMBING, scenarioAFlag]
  simp [ReviewBombingDetector.calculateConfidence, mkScenarioAReview]
  norm_num

/-- C6: the confidence of every `review_bombing` flag is
`min (0.5 + sizeBonus + unverifiedBonus + sameRatingBonus) 1` computed from
the flag's date group exactly as the specification states; in particular
Scenario A (5 reviews, one date, all unverified, all rating 5) produces one
flag with confidence 0.9. -/
theorem spec_C6_bombing_confidence :
    (∀ (revs : List Review), ∀ f ∈ detectReviewBombing revs,
        f.confidence = confidence_spec (groupOf revs f.details.date)) ∧
      detectReviewBombing scenarioA = [scenarioAFlag] := by
  constructor
  · intro revs f hf
    rw [detectReviewBombing_eq] at hf
    obtain ⟨d, _, hFd⟩ := List.mem_filterMap.mp hf
    unfold flagFor at hFd
    split at hFd
    · rename_i h4
      cases hFd
      have hne : groupOf revs d ≠ [] := by
        intro h0
        rw [h0] at h4
        simp [MINIMUM_REVIEWS_FOR_BOMBING] at h4
      simpa using calculateConfidence_eq_spec (groupOf revs d) hne
    · cases hFd
  · exact detect_scenarioA

/-- Witness for C6: Scenario A's flag satisfies the confidence law. -/
theorem spec_C6_bombing_confidence_witness :
    scenarioAFlag.confidence = confidence_spec (groupOf scenarioA scenarioAFlag.details.date) :=
  spec_C6_bombing_confidence.1 scenarioA scenarioAFlag
    (by rw [spec_C6_bombing_confidence.2]; exact List.mem_singleton.mpr rfl)

/-- Witness for C5: in Scenario A the date 2024-01-15 has a group of 5 and
yields exactly one flag; the date "other" has an empty group and yields
none. -/
theorem spec_C5_reviewBombing_flags_witness :
    (detectReviewBombing scenarioA).filter
        (fun f => f.details.date = "2024-01-15") =
      [{ type := "review_bombing"
         confidence :=
           ReviewBombingDetector.calculateConfidence (groupOf scenarioA "2024-01-15")
         details :=
           { date := "2024-01-15"
             reviewCount := (groupOf scenarioA "2024-01-15").length
             hoursSpan := 24
             reviewIds := (groupOf scenarioA "2024-01-15").map Review.id } }] ∧
    (detectReviewBombing scenarioA).filter (fun f => f.details.date = "other") = [] :=
  ⟨((spec_C5_reviewBombing_flags scenarioA).1 "2024-01-15").1
      (by simp [groupOf, scenarioA, mkScenarioAReview, dateKey, MINIMUM_REVIEWS_FOR_BOMBING]),
    ((spec_C5_reviewBombing_flags scenarioA).1 "other").2
      (by simp [groupOf, scenarioA, mkScenarioAReview, dateKey, MINIMUM_REVIEWS_FOR_BOMBING])⟩

lemma dateKey_of_blank {r : Review} (h : r.date = some "") : dateKey r = none := by
  simp [dateKey, h]

lemma groupByDate_fold_map_blank :
    ∀ (revs : List Review) (acc : List (String × List Review)),
      revs.foldl
          (fun m r => match dateKey r with | none => m | some d => insertIntoGroup m d r)
          acc =
        (revs.map (fun r => if r.date = some "" then { r with date := none } else r)).foldl
          (fun m r => match dateKey r with | none => m | some d => insertIntoGroup m d r)
          acc := by
  intro revs
  induction revs with
  | nil => intro acc; rfl
  | cons r revs ih =>
      intro acc
      rw [List.map_cons, List.foldl_cons, List.foldl_cons]
      by_cases hb : r.date = some ""
      · rw [if_pos hb, dateKey_of_blank hb]
        have : dateKey { r with date := none } = none := rfl
        rw [this]
        exact ih acc
      · rw [if_neg hb]
        exact ih _

lemma groupByDate_fold_filter_blank :
    ∀ (revs : List Review) (acc : List (String × List Review)),
      revs.foldl
          (fun m r => match dateKey r with | none => m | some d => insertIntoGroup m d r)
          acc =
        (revs.filter (fun r => r.date ≠ some "")).foldl
          (fun m r => match dateKey r with | none => m | some d => insertIntoGroup m d r)
          acc := by
  intro revs
  induction revs with
  | nil => intro acc; rfl
  | cons r revs ih =>
      intro acc
      by_cases hb : r.date = some ""
      · have h1 : List.filter (fun r => decide (r.date ≠ some "")) (r :: revs) =
            List.filter (fun r => decide (r.date ≠ some "")) revs := by
          simp [List.filter_cons, hb]
        rw [h1, List.foldl_cons, dateKey_of_blank hb]
        exact ih acc
      · have h1 : List.filter (fun r => decide (r.date ≠ some "")) (r :: revs) =
            r :: List.filter (fun r => decide (r.date ≠ some "")) revs := by
          simp [List.filter_cons, hb]
        rw [h1, List.foldl_cons, List.foldl_cons]
        exact ih _

/-- C10: a review whose `date` field is the empty string is treated exactly
like a review without a date: replacing every `some ""` date by `none`
leaves the detector output unchanged, and so does removing those reviews
from the batch entirely — they join no group, count toward no group size,
and are referenced by no flag. -/
theorem spec_C10_blank_date_like_missing (revs : List Review) :
    detectReviewBombing revs =
        detectReviewBombing
          (revs.map (fun r => if r.date = some "" then { r with date := none } else r)) ∧
      detectReviewBombing revs =
        detectReviewBombing (revs.filter (fun r => r.date ≠ some "")) := by
  have h1 : groupByDate revs =
      groupByDate (revs.map (fun r => if r.date = some "" then { r with date := none } else r)) :=
    groupByDate_fold_map_blank revs []
  have h2 : groupByDate revs =
      groupByDate (revs.filter (fun r => r.date ≠ some "")) :=
    groupByDate_fold_filter_blank revs []
  constructor
  · unfold detectReviewBombing
    rw [h1]
  · unfold detectReviewBombing
    rw [h2]

/-- `VERIFIED_PURCHASE_THRESHOLD` -/
def VERIFIED_PURCHASE_THRESHOLD : ℤ := 70

/-- The `details` record of a `high_verified_purchases` flag. -/
structure VerifiedDetails where
  percentage : ℤ
  deriving DecidableEq, Repr

/-- A `HighVerifiedPurchasesFlag`. -/
structure HighVerifiedPurchasesFlag where
  type : String
  confidence : ℚ
  details : VerifiedDetails
  deriving DecidableEq, Repr

namespace VerifiedPurchasesDetector

/-- `calculateConfidence` from verified-purchases-detector.ts. -/
def calculateConfidence (percentage : ℤ) : ℚ :=
  if 90 ≤ percentage then 95/100
  else if 85 ≤ percentage then 85/100
  else if 80 ≤ percentage then 75/100
  else if 75 ≤ percentage then 65/100
  else 55/100

end VerifiedPurchasesDetector

/-- `detectHighVerifiedPurchases` from verified-purchases-detector.ts. -/
def detectHighVerifiedPurchases (reviews : List Review) : List HighVerifiedPurchasesFlag :=
  if reviews.length = 0 then []
  else
    let verifiedCount := (reviews.filter (fun r => r.verified)).length
    let percentage : ℤ := jsRound ((verifiedCount : ℚ) / (reviews.length : ℚ) * 100)
    if VERIFIED_PURCHASE_THRESHOLD ≤ percentage then
      [{ type := "high_verified_purchases"
         confidence := VerifiedPurchasesDetector.calculateConfidence percentage
         details := { percentage := percentage } }]
    else []

lemma jsRound_eq (x : ℚ) (n : ℤ) (h₁ : (n : ℚ) ≤ x + 1/2) (h₂ : x + 1/2 < n + 1) :
    jsRound x = n :=
  Int.floor_eq_iff.mpr ⟨h₁, h₂⟩

/-- A dateless review used in the verified-percentage test batches. -/
def mkPlainReview (i : String) (v : Bool) : Review :=
  { id := i, rating := 4, text := "ok", author := "u", verified := v, date := none }

/-- 10 reviews, 7 verified: exactly 70 %. -/
def batch70 : List Review :=
  [mkPlainReview "v1" true, mkPlainReview "v2" true, mkPlainReview "v3" true,
    mkPlainReview "v4" true, mkPlainReview "v5" true, mkPlainReview "v6" true,
    mkPlainReview "v7" true, mkPlainReview "u1" false, mkPlainReview "u2" false,
    mkPlainReview "u3" false]

/-- 3 reviews, all verified: 100 %. -/
def batchAllVerified : List Review :=
  [mkPlainReview "w1" true, mkPlainReview "w2" true, mkPlainReview "w3" true]

/-- C7: the verified-purchase detector emits no flag on an empty batch;
otherwise, with `pct = round(100 * verifiedCount / total)`, it emits exactly
one `high_verified_purchases` flag iff `pct ≥ 70`, with details
`{percentage := pct}` and confidence banded 0.95 / 0.85 / 0.75 / 0.65 / 0.55
at the thresholds 90 / 85 / 80 / 75 / 70; at exactly 70 % the confidence is
0.55, and on an all-verified batch the percentage is 100 with confidence
0.95. -/
theorem spec_C7_highVerified (revs : List Review) :
    (revs = [] → detectHighVerifiedPurchases revs = []) ∧
    (revs ≠ [] →
      (70 ≤ jsRound (100 * ((revs.filter (fun r => r.verified)).length : ℚ) /
            (revs.length : ℚ)) →
        detectHighVerifiedPurchases revs =
          [{ type := "high_verified_purchases"
             confidence :=
               (fun pct : ℤ =>
                 if 90 ≤ pct then 95/100 else if 85 ≤ pct then 85/100
                 else if 80 ≤ pct then 75/100 else if 75 ≤ pct then 65/100
                 else (55 : ℚ)/100)
                 (jsRound (100 * ((revs.filter (fun r => r.verified)).length : ℚ) /
                   (revs.length : ℚ)))
             details :=
               { percentage :=
                   jsRound (100 * ((revs.filter (fun r => r.verified)).length : ℚ) /
                     (revs.length : ℚ)) } }]) ∧
      (jsRound (100 * ((revs.filter (fun r => r.verified)).length : ℚ) /
            (revs.length : ℚ)) < 70 →
        detectHighVerifiedPurchases revs = [])) ∧
    detectHighVerifiedPurchases batch70 =
      [{ type := "high_verified_purchases", confidence := 55/100,
         details := { percentage := 70 } }] ∧
    detectHighVerifiedPurchases batchAllVerified =
      [{ type := "high_verified_purchases", confidence := 95/100,
         details := { percentage := 100 } }] := by
  refine ⟨?_, ?_, ?_, ?_⟩
  · intro h
    subst h
    rfl
  · intro hne
    have hlen : ¬ revs.length = 0 := fun h => hne (List.length_eq_zero.mp h)
    have harg : ((revs.filter (fun r => r.verified)).length : ℚ) / (revs.length : ℚ) * 100 =
        100 * ((revs.filter (fun r => r.verified)).length : ℚ) / (revs.length : ℚ) := by
      ring
    constructor
    · intro hge
      simp only [detectHighVerifiedPurchases, if_neg hlen, harg]
      rw [if_pos (show VERIFIED_PURCHASE_THRESHOLD ≤ _ from hge)]
      rfl
    · intro hlt
      simp only [detectHighVerifiedPurchases, if_neg hlen, harg]
      rw [if_neg (by simp only [VERIFIED_PURCHASE_THRESHOLD]; omega)]
  · have hpct : jsRound ((7 : ℚ) / (10 : ℚ) * 100) = 70 :=
      jsRound_eq _ 70 (by norm_num) (by norm_num)
    simp [detectHighVerifiedPurchases, batch70, mkPlainReview, VERIFIED_PURCHASE_THRESHOLD,
      VerifiedPurchasesDetector.calculateConfidence, hpct]
  · have hpct : jsRound ((100 : ℚ)) = 100 :=
      jsRound_eq _ 100 (by norm_num) (by norm_num)
    simp [detectHighVerifiedPurchases, batchAllVerified, mkPlainReview,
      VERIFIED_PURCHASE_THRESHOLD, VerifiedPurchasesDetector.calculateConfidence, hpct]

/-- Witness for C7, applying it to the empty batch and to the 70 % batch. -/
theorem spec_C7_highVerified_witness :
    detectHighVerifiedPurchases [] = [] ∧
      detectHighVerifiedPurchases batch70 =
        [{ type := "high_verified_purchases"
           confidence :=
             VerifiedPurchasesDetector.calculateConfidence
               (jsRound (100 * ((batch70.filter (fun r => r.verified)).length : ℚ) /
                 (batch70.length : ℚ)))
           details :=
             { percentage :=
                 jsRound (100 * ((batch70.filter (fun r => r.verified)).length : ℚ) /
                   (batch70.length : ℚ)) } }] := by
  constructor
  · exact (spec_C7_highVerified []).1 rfl
  · have hpct :
        jsRound (100 * ((batch70.filter (fun r => r.verified)).length : ℚ) /
          (batch70.length : ℚ)) = 70 := by
      have h7 : ((batch70.filter (fun r => r.verified)).length : ℚ) = 7 := by
        simp [batch70, mkPlainReview]
      have h10 : ((batch70.length : ℚ)) = 10 := by
        simp [batch70]
      rw [h7, h10]
      exact jsRound_eq _ 70 (by norm_num) (by norm_num)
    exact ((spec_C7_highVerified batch70).2.1 (by simp [batch70])).1 (by rw [hpct])

/-- A parsed JSON value (the result of `JSON.parse` on the classifier's
response content). -/
inductive Json where
  | null
  | bool (b : Bool)
  | num (q : ℚ)
  | str (s : String)
  | arr (elems : List Json)
  | obj (fields : List (String × Json))

/-- Property lookup on a parsed JSON object. -/
def getField (fields : List (String × Json)) (k : String) : Option Json :=
  (fields.find? (fun p => p.1 == k)).map Prod.snd

/-- `z.string()` -/
def parseString : Json → Option String
  | .str s => some s
  | _ => none

/-- `z.number()` -/
def parseNumber : Json → Option ℚ
  | .num q => some q
  | _ => none

/-- All elements of a JSON array validated as strings. -/
def parseStringList : List Json → Option (List String)
  | [] => some []
  | j :: js =>
      match parseString j, parseStringList js with
      | some s, some ss => some (s :: ss)
      | _, _ => none

/-- `z.array(z.string())` -/
def parseStringArray : Json → Option (List String)
  | .arr xs => parseStringList xs
  | _ => none

/-- `z.number().min(0).max(1)` -/
def parseConfidence (j : Json) : Option ℚ :=
  match parseNumber j with
  | none => none
  | some q => if 0 ≤ q ∧ q ≤ 1 then some q else none

/-- A red flag accepted by `AnalysisResponseSchema` (the zod discriminated
union of content-pattern-analyzer/index.ts). -/
inductive ValidatedRedFlag where
  | phrase_repetition (confidence : ℚ) (phrase : String) (reviewIds : List String)
  | excessive_positivity (confidence : ℚ) (reviewIds : List String)
      (keywords : Option (List String))
  | review_bombing (confidence : ℚ) (date : String) (reviewCount : ℚ)
      (hoursSpan : ℚ) (reviewIds : List String)
  deriving DecidableEq, Repr

/-- The `reviewIds` list in a validated flag's details. -/
def ValidatedRedFlag.reviewIds : ValidatedRedFlag → List String
  | .phrase_repetition _ _ ids => ids
  | .excessive_positivity _ ids _ => ids
  | .review_bombing _ _ _ _ ids => ids

/-- One branch of the zod discriminated union: discriminate on `type`, check
`confidence ∈ [0,1]`, and validate the `details` object's required keys
(`keywords` is optional); unknown extra keys are ignored, exactly as zod
does. -/
def parseRedFlag (j : Json) : Option ValidatedRedFlag :=
  match j with
  | .obj fields =>
      match getField fields "type", getField fields "confidence",
          getField fields "details" with
      | some (.str t), some cj, some (.obj dfields) =>
          match parseConfidence cj with
          | none => none
          | some c =>
              if t = "phrase_repetition" then
                match getField dfields "phrase", getField dfields "reviewIds" with
                | some (.str p), some idsj =>
                    match parseStringArray idsj with
                    | some ids => some (.phrase_repetition c p ids)
                    | none => none
                | _, _ => none
              else if t = "excessive_positivity" then
                match getField dfields "reviewIds" with
                | some idsj =>
                    match parseStringArray idsj with
                    | some ids =>
                        match getField dfields "keywords" with
                        | none => some (.excessive_positivity c ids none)
                        | some kj =>
                            match parseStringArray kj with
                            | some ks => some (.excessive_positivity c ids (some ks))
                            | none => none
                    | none => none
                | none => none
              else if t = "review_bombing" then
                match getField dfields "date", getField dfields "reviewCount",
                    getField dfields "hoursSpan", getField dfields "reviewIds" with
                | some (.str d), some rcj, some hsj, some idsj =>
                    match parseNumber rcj, parseNumber hsj, parseStringArray idsj with
                    | some rc, some hs, some ids =>
                        some (.review_bombing c d rc hs ids)
                    | _, _, _ => none
                | _, _, _, _ => none
              else none
      | _, _, _ => none
  | _ => none

/-- All elements of the `redFlags` array validated. -/
def parseFlagList : List Json → Option (List ValidatedRedFlag)
  | [] => some []
  | j :: js =>
      match parseRedFlag j, parseFlagList js with
      | some f, some fs => some (f :: fs)
      | _, _ => none

/-- `AnalysisResponseSchema.safeParse`: an object with a `redFlags` array all
of whose elements validate. -/
def validateAnalysisResponse (j : Json) : Option (List ValidatedRedFlag) :=
  match j with
  | .obj fields =>
      match getField fields "redFlags" with
      | some (.arr xs) => parseFlagList xs
      | _ => none
  | _ => none

/-- The result record of `analyzeContentPatterns`. -/
structure ContentAnalysis where
  redFlags : List ValidatedRedFlag
  deriving DecidableEq, Repr

/-- The possible behaviours of the external OpenAI call as observed inside
the `try` block: the request throws / rejects; the response carries no (or
falsy) `content`; `JSON.parse` throws; or parsing yields a JSON value. -/
inductive ClassifierOutcome where
  | requestError
  | noContent
  | unparseableContent
  | parsedContent (j : Json)

/-- `analyzeContentPatterns` from content-pattern-analyzer/index.ts, with the
external call's behaviour made an explicit parameter.  Every throw inside the
`try` block lands in the `catch`, which returns `{redFlags: []}`. -/
def analyzeContentPatterns (_reviews : List Review) (outcome : ClassifierOutcome) :
    ContentAnalysis :=
  match outcome with
  | .requestError => { redFlags := [] }
  | .noContent => { redFlags := [] }
  | .unparseableContent => { redFlags := [] }
  | .parsedContent j =>
      match validateAnalysisResponse j with
      | none => { redFlags := [] }
      | some flags => { redFlags := flags }

/-- An outcome on which the source's `try` block throws (or schema validation
fails). -/
def ClassifierOutcome.isFailure : ClassifierOutcome → Prop
  | .requestError => True
  | .noContent => True
  | .unparseableContent => True
  | .parsedContent j => validateAnalysisResponse j = none

/-- C8: `analyzeContentPatterns` is total (a Lean function by construction)
and converts every failure of the external classification call — request
error, missing content, unparseable content, or schema-validation failure —
into the empty red-flag result, never propagating an error. -/
theorem spec_C8_analyze_fails_open (reviews : List Review) (o : ClassifierOutcome)
    (h : o.isFailure) : analyzeContentPatterns reviews o = { redFlags := [] } := by
  cases o with
  | requestError => rfl
  | noContent => rfl
  | unparseableContent => rfl
  | parsedContent j =>
      have hj : validateAnalysisResponse j = none := h
      simp [analyzeContentPatterns, hj]

/-- Witness for C8: a request error and a schema-invalid response both give
the empty result. -/
theorem spec_C8_analyze_fails_open_witness :
    analyzeContentPatterns [] ClassifierOutcome.requestError = { redFlags := [] } ∧
      analyzeContentPatterns [] (ClassifierOutcome.parsedContent (Json.str "oops")) =
        { redFlags := [] } :=
  ⟨spec_C8_analyze_fails_open [] ClassifierOutcome.requestError trivial,
    spec_C8_analyze_fails_open [] (ClassifierOutcome.parsedContent (Json.str "oops")) rfl⟩

/-- A schema-valid classifier response whose flag references the id "zzz",
which belongs to no review of the batch it is analysed against. -/
def badResponseJson : Json :=
  Json.obj
    [("redFlags",
      Json.arr
        [Json.obj
          [("type", Json.str "phrase_repetition"),
            ("confidence", Json.num (9/10)),
            ("details",
              Json.obj
                [("phrase", Json.str "great product"),
                  ("reviewIds", Json.arr [Json.str "zzz"])])]])]

/-- A one-review batch whose only id is "r1". -/
def soloBatch : List Review := [mkPlainReview "r1" true]

lemma validate_badResponseJson :
    validateAnalysisResponse badResponseJson =
      some [ValidatedRedFlag.phrase_repetition (9/10) "great product" ["zzz"]] := by
  have hconf : parseConfidence (Json.num (9/10)) = some (9/10) := by
    simp [parseConfidence, parseNumber]
    norm_num
  simp [validateAnalysisResponse, badResponseJson, getField, parseFlagList, parseRedFlag,
    hconf, parseStringArray, parseStringList, parseString]

/-- C9 counterexample: the claimed invariant — every `reviewIds` entry of
every engine flag (local bombing flags and classifier flags accepted by the
response validation) names an id present in the input batch — is false: the
zod schema only checks that `reviewIds` is an array of strings, so a
response referencing the foreign id "zzz" validates against a batch whose
only id is "r1". -/
theorem spec_C9_counterexample :
    ¬ ((∀ revs : List Review, ∀ f ∈ detectReviewBombing revs,
          ∀ i ∈ f.details.reviewIds, ∃ r ∈ revs, r.id = i) ∧
        (∀ (revs : List Review) (o : ClassifierOutcome),
          ∀ f ∈ (analyzeContentPatterns revs o).redFlags,
          ∀ i ∈ f.reviewIds, ∃ r ∈ revs, r.id = i)) := by
  rintro ⟨-, h⟩
  have hmem :
      ValidatedRedFlag.phrase_repetition (9/10) "great product" ["zzz"] ∈
        (analyzeContentPatterns soloBatch
          (ClassifierOutcome.parsedContent badResponseJson)).redFlags := by
    simp [analyzeContentPatterns, validate_badResponseJson]
  obtain ⟨r, hr, hid⟩ :=
    h soloBatch (ClassifierOutcome.parsedContent badResponseJson) _ hmem "zzz"
      (by simp [ValidatedRedFlag.reviewIds])
  simp only [soloBatch, List.mem_singleton] at hr
  rw [hr] at hid
  simp [mkPlainReview] at hid

/-- C9 (amended): every `reviewIds` entry of every flag produced by the
local `detectReviewBombing` detector references an id present in the input
batch; the classifier-boundary schema, by contrast, only validates the shape
of `reviewIds` and does not restrict its entries to batch ids. -/
theorem spec_C9_local_flag_ids_in_batch :
    ∀ revs : List Review, ∀ f ∈ detectReviewBombing revs,
      ∀ i ∈ f.details.reviewIds, ∃ r ∈ revs, r.id = i := by
  intro revs f hf i hi
  obtain ⟨r, hr, _, hid⟩ := detectReviewBombing_ids revs f hf i hi
  exact ⟨r, hr, hid⟩

/-- Witness for C9 (amended): the id "a1" referenced by Scenario A's flag is
the id of a Scenario A review. -/
theorem spec_C9_local_flag_ids_in_batch_witness :
    ∃ r ∈ scenarioA, r.id = "a1" :=
  spec_C9_local_flag_ids_in_batch scenarioA scenarioAFlag
    (by rw [detect_scenarioA]; exact List.mem_singleton.mpr rfl) "a1"
    (by simp [scenarioAFlag])
